import Mathlib

/-!
Verification development for the reading-roundup repository.

The embedding covers:
- the data model (`ReadingListEntry`, the `reading_list` and `roundup_contents` tables),
- the body scanner (`find_url`, `scan_body`) over the markdown AST,
- the tag-line regex `ENTRY_REGEX` specialised to its concrete pattern,
- the file walker (`scan_file`, `scan_files`) over an explicit filesystem tree,
- the catalog store operations (`insert`, `update`, `update_article`,
  `update_roundup`, `render_roundup_md`).

External crates (the markdown parser, the http Uri parser, the SQLite engine,
the real filesystem) are not part of the repository; where an external
behaviour decides a claim it is either taken as a parameter (the markdown
parse function) or modelled from the specification text, with a doc comment
saying so.
-/

/-- Calendar date; models chrono NaiveDate as the repository uses it
(a year-month-day triple, proleptic Gregorian). Negative years never arise
in any claim and are omitted. -/
structure NaiveDate where
  year : Nat
  month : Nat
  day : Nat
deriving DecidableEq

/-- Gregorian leap-year rule, as chrono implements it. -/
def isLeapYear (y : Nat) : Bool :=
  (y % 4 == 0 && y % 100 != 0) || (y % 400 == 0)

/-- Days in a month of the proleptic Gregorian calendar. -/
def daysInMonth (y : Nat) (m : Nat) : Nat :=
  if m = 2 then (if isLeapYear y then 29 else 28)
  else if m = 4 ∨ m = 6 ∨ m = 9 ∨ m = 11 then 30
  else 31

/-- Value of a nonempty all-digit character list, read in base 10. -/
def digitsToNat (cs : List Char) : Option Nat :=
  if cs ≠ [] ∧ cs.all Char.isDigit then
    some (cs.foldl (fun a c => a * 10 + (c.toNat - 48)) 0)
  else none

/-- Models the chrono NaiveDate FromStr parse of a file stem: three dash
separated decimal components, with the month and day validated against the
calendar. -/
def parseDate (s : String) : Option NaiveDate :=
  match s.data.splitOn '-' with
  | [y, m, d] =>
    match digitsToNat y, digitsToNat m, digitsToNat d with
    | some ys, some ms, some ds =>
      if 1 ≤ ms ∧ ms ≤ 12 ∧ 1 ≤ ds ∧ ds ≤ daysInMonth ys ms then
        some ⟨ys, ms, ds⟩
      else none
    | _, _, _ => none
  | _ => none

/-- Zero-pad a decimal rendering to the given width. -/
def zeroPad (w : Nat) (n : Nat) : String :=
  let s := toString n
  String.mk (List.replicate (w - s.length) '0') ++ s

/-- Display form of a date, as chrono Display renders it (YYYY-MM-DD): this
is the value bound for the source_date column by the insert statement. -/
def dateToString (d : NaiveDate) : String :=
  zeroPad 4 d.year ++ "-" ++ zeroPad 2 d.month ++ "-" ++ zeroPad 2 d.day

/-- A URI, carried in its textual form. -/
abbrev Uri := String

/-- Scheme characters allowed after the leading letter of a URL scheme. -/
def isSchemeChar (c : Char) : Bool :=
  c.isAlphanum || c == '+' || c == '-' || c == '.'

/-- Modelled from the spec: the check that a link url attribute
"parses as a syntactically valid absolute URL". The source delegates this to
the http crate Uri parser (`link.url.parse::<Uri>().ok()`), whose code is not
part of this repository; the spec describes the accepted values as
syntactically valid absolute URLs, modelled here as scheme://rest with a
letter-led scheme, a nonempty remainder, and no space characters. -/
def parseUri (s : String) : Option Uri :=
  let cs := s.data
  let scheme := cs.takeWhile (fun c => c ≠ ':')
  let rest := cs.drop scheme.length
  if scheme ≠ [] ∧ (scheme.headD 'a').isAlpha ∧ scheme.all isSchemeChar ∧
      rest.take 3 = [':', '/', '/'] ∧ 3 < rest.length ∧
      cs.all (fun c => c ≠ ' ') then
    some s
  else none

/-- Entry in or for the reading-list database; from src/data/src/lib.rs. -/
structure ReadingListEntry where
  url : Uri
  original_text : String
  body_text : String
  source_date : NaiveDate
  read : Option Bool
deriving DecidableEq

/-- The error kinds of the roundup crate (src/roundup/src/lib.rs). The io
Error payloads are opaque to the repository and are modelled as strings. -/
inductive RoundupErrorKind where
  | ScanIOError (cause : String)
  | StatIOError (cause : String)
  | InvalidFile (reason : String)
  | MarkdownError (body : String)
  | MissingLink (body : String)
deriving DecidableEq

/-- A per-file or per-directory error record, pairing the path with the
error kind; from src/roundup/src/lib.rs. -/
structure RoundupError where
  file : String
  kind : RoundupErrorKind
deriving DecidableEq

/-- A row of the reading_list table. The column values are as bound by the
insert statement of src/roundup/src/lib.rs: url and source_date stored in
textual form, read as a nullable boolean. -/
structure Row where
  id : Int
  url : String
  source_date : String
  original_text : String
  body_text : String
  read : Option Bool
deriving DecidableEq

/-- Modelled from the spec: the surrogate id assigned on insert. The schema
is not part of src (§6: the schema pre-exists); the spec calls id an
autoincrement surrogate key, modelled as one more than the largest id. -/
def nextId (t : List Row) : Int :=
  (t.foldl (fun a r => max a r.id) 0) + 1

/-- One execution of the prepared statement
INSERT INTO reading_list ... ON CONFLICT (url) DO NOTHING
from the insert function of src/roundup/src/lib.rs: if some row already has
the url, the statement does nothing; otherwise a fresh row is appended. -/
def insertOne (t : List Row) (e : ReadingListEntry) : List Row :=
  if t.any (fun r => r.url = e.url) then t
  else t ++ [⟨nextId t, e.url, dateToString e.source_date,
             e.original_text, e.body_text, e.read⟩]

/-- The statement loop of the insert function: one conflict-ignoring insert
per entry, in sequence. -/
def insertList (t : List Row) (es : List ReadingListEntry) : List Row :=
  es.foldl insertOne t

/-- The insert function of src/roundup/src/lib.rs (BulkIngest): run the
statement loop, then SELECT COUNT(*) FROM reading_list. Returns the table
after the transaction together with that count. -/
def insert (es : List ReadingListEntry) (t : List Row) : List Row × Nat :=
  let t2 := insertList t es
  (t2, t2.length)

/-- The report assembled by the update handler of src/reading/src/lib.rs:
the pre and post counts, whether the transaction committed, the scan error
list, and the HTTP status code. -/
structure UpdateReport where
  count_pre : Nat
  count_post : Nat
  db_ok : Bool
  scan_errors : List RoundupError
  status : Nat
deriving DecidableEq

/-- The update handler of src/reading/src/lib.rs (the Update intent), after
the filesystem scan: in one transaction count the rows, bulk-insert the
scanned entries, count again, commit; then render both the database outcome
and every scan error, with status 500 when the transaction failed or any
scan error exists, 200 otherwise. In this pure model the SQL statements
cannot fail, so the transaction always commits. -/
def update (db : List Row) (scan : List ReadingListEntry × List RoundupError) :
    List Row × UpdateReport :=
  let entries := scan.1
  let errors := scan.2
  let count_pre := db.length
  let db2 := (insert entries db).1
  let count_post := db2.length
  (db2, ⟨count_pre, count_post, true, errors,
         if errors.isEmpty then 200 else 500⟩)

/-- The update_article method of src/reading/src/lib.rs (UpdateEntry):
UPDATE reading_list SET body_text = :body_text, read = :read WHERE id = :id.
Rows whose id differs are untouched; affecting zero rows is not an error. -/
def update_article (db : List Row) (id : Int) (new_body : String)
    (read_state : Option Bool) : List Row :=
  db.map (fun r =>
    if r.id = id then { r with body_text := new_body, read := read_state }
    else r)

/-- A row of the roundup_contents table: a membership pair. -/
structure RRow where
  date : String
  entry : Int
deriving DecidableEq

/-- The update_roundup method of src/reading/src/lib.rs (SetRoundup): in one
transaction, DELETE FROM roundup_contents WHERE date = :date, then INSERT one
(date, id) row per id in the given order. -/
def update_roundup (rc : List RRow) (date : NaiveDate) (articles : List Int) :
    List RRow :=
  let date_str := dateToString date
  rc.filter (fun r => r.date ≠ date_str) ++
    articles.map (fun i => ⟨date_str, i⟩)

/-- The membership flag computed by the render_roundup query of
src/reading/src/lib.rs (GetRoundup): a reading_list row is reported as
included for a date exactly when some roundup_contents row joins it for that
date (the LEFT JOIN subselect WHERE date = :date, with NULL read as false). -/
def getRoundupIncluded (rl : List Row) (rc : List RRow) (date : NaiveDate) :
    List (Row × Bool) :=
  let date_str := dateToString date
  rl.map (fun r => (r, rc.any (fun m => m.date = date_str ∧ m.entry = r.id)))

/-- The ids the GetRoundup view reports as included for a date. -/
def includedIds (rl : List Row) (rc : List RRow) (date : NaiveDate) :
    List Int :=
  (getRoundupIncluded rl rc date).filterMap
    (fun p => if p.2 then some p.1.id else none)

/-- The markdown AST (the mdast Node of the markdown crate) as the body
scanner consumes it: a node is either a Link carrying a url attribute and
children, or any other kind of node, which may or may not carry a list of
children (the children method of the crate returns an Option). -/
inductive Node where
  | link (url : String) (children : List Node)
  | other (children : Option (List Node))

mutual

/-- The find_url function of src/roundup/src/lib.rs: at a Link node, return
the parse of its url attribute (returning none when the url does not parse,
without descending into the link or continuing inside this call); at any
other node, recurse over the children in order, if there are any. -/
def find_url : Node → Option Uri
  | .link url _children => parseUri url
  | .other none => none
  | .other (some children) => find_url_children children

/-- The for-loop of find_url over a child list: first some result wins. -/
def find_url_children : List Node → Option Uri
  | [] => none
  | c :: rest =>
    match find_url c with
    | some v => some v
    | none => find_url_children rest

end

/-- The construct flags of the markdown crate ParseOptions consulted by the
code or the claims; the remaining CommonMark flags are never read by the
repository and are omitted. The defaults are the CommonMark defaults of the
crate: autolink on, GFM literal autolinks off, every MDX construct off. -/
structure Constructs where
  autolink : Bool
  gfm_autolink_literal : Bool
  mdx_esm : Bool
  mdx_expression_flow : Bool
  mdx_expression_text : Bool
  mdx_jsx_flow : Bool
  mdx_jsx_text : Bool
deriving DecidableEq

/-- The crate default Constructs value (CommonMark). -/
def Constructs.default : Constructs :=
  { autolink := true
    gfm_autolink_literal := false
    mdx_esm := false
    mdx_expression_flow := false
    mdx_expression_text := false
    mdx_jsx_flow := false
    mdx_jsx_text := false }

/-- The markdown crate parse options the scanner consults. -/
structure ParseOptions where
  constructs : Constructs
deriving DecidableEq

/-- The crate default ParseOptions value. -/
def ParseOptions.default : ParseOptions :=
  { constructs := Constructs.default }

/-- The parse options built inside scan_body (src/roundup/src/lib.rs):
the default options with autolink forced on. -/
def parseopts : ParseOptions :=
  { ParseOptions.default with
    constructs := { Constructs.default with autolink := true } }

/-- True when any MDX construct is enabled; the markdown crate to_mdast can
only fail on MDX constructs. -/
def Constructs.mdxEnabled (c : Constructs) : Bool :=
  c.mdx_esm || c.mdx_expression_flow || c.mdx_expression_text ||
    c.mdx_jsx_flow || c.mdx_jsx_text

/-- The scan_body function of src/roundup/src/lib.rs, parameterised by the
markdown parse (the external to_mdast applied to the parseopts above): a
parse failure becomes MarkdownError carrying the body, a parsed tree with no
link found becomes MissingLink carrying the body, and otherwise the entry is
built with the found url, the body as both texts, the given date, and an
unknown read state. -/
def scan_body (parse : String → Except String Node) (date : NaiveDate)
    (s : String) : Except RoundupErrorKind ReadingListEntry :=
  match parse s with
  | .error _err => .error (.MarkdownError s)
  | .ok body_ast =>
    match find_url body_ast with
    | none => .error (.MissingLink s)
    | some url =>
      .ok { url := url
            body_text := s
            original_text := s
            source_date := date
            read := none }

mutual

/-- Stated from the spec for comparison with find_url: the url attributes of
the Link nodes in depth-first pre-order, where the traversal visits all
descendants of non-link container nodes before the next sibling (link nodes
themselves are collected, not descended into). -/
def specLinkUrls : Node → List String
  | .link url _children => [url]
  | .other none => []
  | .other (some children) => specLinkUrlsList children

/-- Pre-order url collection over a sibling list. -/
def specLinkUrlsList : List Node → List String
  | [] => []
  | c :: rest => specLinkUrls c ++ specLinkUrlsList rest

end

/-- Stated from the spec: the parse of the first Link url in pre-order that
parses as a valid URL. -/
def specFirstLink (t : Node) : Option Uri :=
  (specLinkUrls t).findSome? parseUri

/-- True when the second list begins the first. -/
def listStartsWith (cs pre : List Char) : Bool :=
  cs.take pre.length = pre

/-- The alternation (reading|read|tbr) of ENTRY_REGEX, tried at the head of
the character list in the written order (leftmost alternative preferred, as
the regex crate leftmost-first semantics prescribes). Returns the matched
tag and the remaining characters. -/
def matchTag (cs : List Char) : Option (String × List Char) :=
  if listStartsWith cs "reading".data then some ("reading", cs.drop 7)
  else if listStartsWith cs "read".data then some ("read", cs.drop 4)
  else if listStartsWith cs "tbr".data then some ("tbr", cs.drop 3)
  else none

/-- The greedy character class run of ENTRY_REGEX between the tag and the
body capture. -/
def skipSpaceColon (cs : List Char) : List Char :=
  cs.dropWhile (fun c => c = ' ' ∨ c = ':')

/-- The backtracking of the greedy leading dot-star of ENTRY_REGEX: the
longest possible head is tried first, so the hash sign selected is the
RIGHTMOST one followed by a tag alternative. The recursion tries the tail
(later positions) before the head position. After the tag, a greedy
space-or-colon run is consumed and the rest of the line is the body. -/
def findTagFrom : List Char → Option (String × String)
  | [] => none
  | c :: rest =>
    match findTagFrom rest with
    | some r => some r
    | none =>
      if c = '#' then
        match matchTag rest with
        | some (tag, after) => some (tag, String.mk (skipSpaceColon after))
        | none => none
      else none

namespace ENTRY_REGEX

/-- The captures call of src/roundup/src/lib.rs for the static pattern
  caret dot-star hash (reading|read|tbr) space-colon-star (dot-star) dollar
specialised to that pattern under the regex crate leftmost-first greedy
semantics: the whole line is the match, group 1 the tag, group 2 the body. -/
def captures (line : String) : Option (String × String) :=
  findTagFrom line.data

end ENTRY_REGEX

/-- Positions i in the line such that character i is a hash sign and a tag
alternative matches right after it; ascending. Stated from the spec to
characterise which occurrence the pattern selects. -/
def tagPositions (cs : List Char) : List Nat :=
  (List.range cs.length).filter
    (fun i => cs.getD i ' ' == '#' && (matchTag (cs.drop (i + 1))).isSome)

/-- The capture pair produced by a match at position i: the tag matched at
i + 1 and the remainder after the tag and the space-or-colon run. -/
def captureAt (cs : List Char) (i : Nat) : Option (String × String) :=
  (matchTag (cs.drop (i + 1))).map
    (fun p => (p.1, String.mk (skipSpaceColon p.2)))

/-- Stated from the claim wording for C3: a capture at the FIRST (leftmost)
tag occurrence of the line. -/
def leftmostCapture (line : String) : Option (String × String) :=
  (tagPositions line.data).head?.bind (captureAt line.data)

/-- The read-state classification of a matched tag in scan_file
(src/roundup/src/lib.rs): read maps to true, tbr to false, anything else
(necessarily reading) to unknown. -/
def readOfTag (tag : String) : Option Bool :=
  if tag = "read" then some true
  else if tag = "tbr" then some false
  else none

/-- The line loop of scan_file (src/roundup/src/lib.rs). Each line is either
an io error (modelled as an error value in the list) or a text line; an io
error fails the whole file as ScanIOError, a line matched by ENTRY_REGEX is
scanned as a body, a scan_body failure fails the whole file, and a matched
success is pushed after overwriting original_text with the full line and
read with the tag classification. -/
def scanLines (parse : String → Except String Node) (source_date : NaiveDate) :
    List (Except String String) → Except RoundupErrorKind (List ReadingListEntry)
  | [] => .ok []
  | .error e :: _rest => .error (.ScanIOError e)
  | .ok line :: rest =>
    match ENTRY_REGEX.captures line with
    | none => scanLines parse source_date rest
    | some (tag, body) =>
      match scan_body parse source_date body with
      | .error e => .error e
      | .ok entry =>
        match scanLines parse source_date rest with
        | .error e => .error e
        | .ok entries =>
          .ok ({ entry with original_text := line, read := readOfTag tag }
               :: entries)

/-- What the walker sees of a regular file: its path, the decoded file stem
(none when absent or not valid text), the extension (none when absent), and
the content, which is none when opening fails and otherwise a list of line
reads, each either an io error or a line. -/
structure FileData where
  path : String
  stem : Option String
  ext : Option String
  content : Option (List (Except String String))
deriving Inhabited

/-- The scan_file function of src/roundup/src/lib.rs: reject an absent or
non-text stem, then a stem that is not a date, then open the file (an open
failure is an io error) and run the line loop. -/
def scan_file (parse : String → Except String Node) (f : FileData) :
    Except RoundupErrorKind (List ReadingListEntry) :=
  match f.stem with
  | none => .error (.InvalidFile "cannot determine file stem, or stem is not UTF-8")
  | some stem =>
    match parseDate stem with
    | none => .error (.InvalidFile "file stem is not YYYY-MM-DD")
    | some source_date =>
      match f.content with
      | none => .error (.ScanIOError "open")
      | some lines => scanLines parse source_date lines

/-- A filesystem tree as the walker observes it: a regular file with its
FileData, or a directory whose enumeration either fails (none) or yields
children, each of which is none when the per-child stat fails. -/
inductive FsTree where
  | file (f : FileData)
  | dir (path : String) (entries : Option (List (Option FsTree)))

/-- The body of the child loop of scan_files (src/roundup/src/lib.rs) for a
single directory entry: a stat failure records a StatIOError against the
containing directory; a directory child is pushed for later; a file child
with extension exactly md is scanned now, a scan failure recording one error
against the file; every other child is ignored. Returns the entries, the
errors, and the directories to push. -/
def scanChild (parse : String → Except String Node) (dirPath : String)
    (child : Option FsTree) :
    List ReadingListEntry × List RoundupError × List FsTree :=
  match child with
  | none => ([], [⟨dirPath, .StatIOError "stat"⟩], [])
  | some (.dir p ents) => ([], [], [.dir p ents])
  | some (.file f) =>
    if f.ext = some "md" then
      match scan_file parse f with
      | .ok v => (v, [], [])
      | .error e => ([], [⟨f.path, e⟩], [])
    else ([], [], [])

/-- The child loop of scan_files over one enumerated directory, in
enumeration order. -/
def processChildren (parse : String → Except String Node) (dirPath : String) :
    List (Option FsTree) →
    List ReadingListEntry × List RoundupError × List FsTree
  | [] => ([], [], [])
  | c :: rest =>
    let h := scanChild parse dirPath c
    let t := processChildren parse dirPath rest
    (h.1 ++ t.1, h.2.1 ++ t.2.1, h.2.2 ++ t.2.2)

/-- The while-let loop of scan_files over the explicit directory stack
(the source pops from the end of a vector, so pushed subdirectories are
revisited in reverse enumeration order; the stack head here is the vector
end). A popped path whose enumeration fails records a StatIOError and the
loop continues; otherwise the children are processed and the subdirectories
pushed. A file on the stack can only be the initial path, whose read_dir
fails. -/
def scanFilesGo (parse : String → Except String Node) :
    List FsTree → List ReadingListEntry × List RoundupError
  | [] => ([], [])
  | .file f :: rest =>
    let t := scanFilesGo parse rest
    (t.1, ⟨f.path, .StatIOError "read_dir"⟩ :: t.2)
  | .dir p none :: rest =>
    let t := scanFilesGo parse rest
    (t.1, ⟨p, .StatIOError "read_dir"⟩ :: t.2)
  | .dir p (some l) :: rest =>
    let pc := processChildren parse p l
    let t := scanFilesGo parse (pc.2.2.reverse ++ rest)
    (pc.1 ++ t.1, pc.2.1 ++ t.2)
termination_by stack => (stack.map sizeOf).sum
decreasing_by
  · simp only [List.map_cons, List.sum_cons, FsTree.file.sizeOf_spec]
    omega
  · simp only [List.map_cons, List.sum_cons, FsTree.dir.sizeOf_spec]
    omega
  · have hchild : ∀ c : Option FsTree,
        (((scanChild parse p c).2.2).map sizeOf).sum ≤ sizeOf c := by
      intro c
      rcases c with _ | t
      · simp [scanChild]
      · rcases t with f | ⟨q, ents⟩
        · simp only [scanChild]
          by_cases hf : f.ext = some "md"
          · simp only [hf, if_pos rfl]
            rcases scan_file parse f with e | v
            · simp [Option.some.sizeOf_spec]
            · simp [Option.some.sizeOf_spec]
          · simp only [if_neg hf]
            simp [Option.some.sizeOf_spec]
        · simp only [scanChild, List.map_cons, List.map_nil, List.sum_cons,
            List.sum_nil, Option.some.sizeOf_spec]
          omega
    have hsize : ∀ l2 : List (Option FsTree),
        (((processChildren parse p l2).2.2).map sizeOf).sum ≤ sizeOf l2 := by
      intro l2
      induction l2 with
      | nil => simp [processChildren]
      | cons c cs ih =>
        simp only [processChildren, List.map_append, List.sum_append,
          List.cons.sizeOf_spec]
        have := hchild c
        omega
    simp only [List.map_append, List.sum_append, List.map_reverse,
      List.sum_reverse, List.map_cons, List.sum_cons, FsTree.dir.sizeOf_spec,
      Option.some.sizeOf_spec]
    have := hsize l
    omega

/-- The scan_files function of src/roundup/src/lib.rs: start the stack with
the given root and run the loop; both the entry list and the error list are
always returned. -/
def scan_files (parse : String → Except String Node) (root : FsTree) :
    List ReadingListEntry × List RoundupError :=
  scanFilesGo parse [root]

/-- The rows produced by the render_roundup_md query of
src/reading/src/lib.rs: SELECT reading_list.body_text FROM roundup_contents
LEFT JOIN reading_list ON reading_list.id = roundup_contents.entry WHERE
roundup_contents.date = :date. One output row per matching membership row
per matching reading_list row; a membership row with no matching entry still
yields one output row, whose body_text is NULL (none). -/
def leftJoinBodies (rc : List RRow) (rl : List Row) (date_str : String) :
    List (Option String) :=
  ((rc.filter (fun m => m.date = date_str)).map (fun m =>
    let hits := rl.filter (fun r => r.id = m.entry)
    if hits.isEmpty then [none]
    else hits.map (fun r => some r.body_text))).flatten

/-- The collect of the query_map results: reading a NULL body_text as a
String fails the whole query at the first such row. -/
def collectRows : List (Option String) → Except Unit (List String)
  | [] => .ok []
  | none :: _rest => .error ()
  | some b :: rest =>
    match collectRows rest with
    | .error e => .error e
    | .ok bs => .ok (b :: bs)

/-- The front-matter block written by render_roundup_md, exactly as the
write macro renders it. -/
def frontMatter (date_str : String) : String :=
  "---\ntitle: \"Reading Roundup, " ++ date_str ++ "\"\ndate: " ++ date_str
    ++ "\n---\n\n"

/-- The render_roundup_md method of src/reading/src/lib.rs
(ComposeRoundupMarkdown): run the body query, then write the front matter
followed by, for each body, the body plus a newline plus a further newline
as a paragraph break. -/
def render_roundup_md (rl : List Row) (rc : List RRow) (date : NaiveDate) :
    Except Unit String :=
  let date_str := dateToString date
  match collectRows (leftJoinBodies rc rl date_str) with
  | .error e => .error e
  | .ok bodies =>
    .ok (bodies.foldl (fun acc b => acc ++ b ++ "\n" ++ "\n")
          (frontMatter date_str))

/-- Stated from the spec for comparison with render_roundup_md: the
body_text of every entry whose membership includes the date, in membership
order. -/
def specBodies (rl : List Row) (rc : List RRow) (date_str : String) :
    List String :=
  (rc.filter (fun m => m.date = date_str)).filterMap
    (fun m => (rl.find? (fun r => r.id = m.entry)).map (fun r => r.body_text))

theorem insertOne_extends (t : List Row) (e : ReadingListEntry) :
    ∃ s, insertOne t e = t ++ s := by
  unfold insertOne
  by_cases h : t.any (fun r => r.url = e.url)
  · exact ⟨[], by simp [h]⟩
  · refine ⟨[⟨nextId t, e.url, dateToString e.source_date, e.original_text,
      e.body_text, e.read⟩], ?_⟩
    simp [h]

theorem insertList_extends (X : List ReadingListEntry) (t : List Row) :
    ∃ s, insertList t X = t ++ s := by
  induction X generalizing t with
  | nil => exact ⟨[], by simp [insertList]⟩
  | cons e X ih =>
    obtain ⟨s1, h1⟩ := insertOne_extends t e
    obtain ⟨s2, h2⟩ := ih (insertOne t e)
    refine ⟨s1 ++ s2, ?_⟩
    simp only [insertList, List.foldl_cons] at h2 ⊢
    rw [h2, h1, List.append_assoc]

theorem any_url_insertOne_self (t : List Row) (e : ReadingListEntry) :
    (insertOne t e).any (fun r => r.url = e.url) = true := by
  unfold insertOne
  by_cases h : t.any (fun r => r.url = e.url)
  · simp [h]
  · simp [h]

theorem any_url_insertOne_mono (t : List Row) (e : ReadingListEntry)
    (u : String) (h : t.any (fun r => r.url = u) = true) :
    (insertOne t e).any (fun r => r.url = u) = true := by
  obtain ⟨s, hs⟩ := insertOne_extends t e
  rw [hs, List.any_append, h, Bool.true_or]

theorem any_url_insertList_mono (X : List ReadingListEntry) (t : List Row)
    (u : String) (h : t.any (fun r => r.url = u) = true) :
    (insertList t X).any (fun r => r.url = u) = true := by
  obtain ⟨s, hs⟩ := insertList_extends X t
  rw [hs, List.any_append, h, Bool.true_or]

theorem any_url_insertList_mem (X : List ReadingListEntry) (t : List Row)
    (e : ReadingListEntry) (he : e ∈ X) :
    (insertList t X).any (fun r => r.url = e.url) = true := by
  induction X generalizing t with
  | nil => cases he
  | cons f X ih =>
    rcases List.mem_cons.mp he with rfl | he2
    · simp only [insertList, List.foldl_cons]
      exact any_url_insertList_mono X _ _ (any_url_insertOne_self t e)
    · simp only [insertList, List.foldl_cons]
      exact ih _ he2

theorem insertOne_of_any (t : List Row) (e : ReadingListEntry)
    (h : t.any (fun r => r.url = e.url) = true) : insertOne t e = t := by
  unfold insertOne
  simp [h]

theorem insertList_of_all (X : List ReadingListEntry) (t : List Row)
    (h : ∀ e ∈ X, t.any (fun r => r.url = e.url) = true) :
    insertList t X = t := by
  induction X with
  | nil => simp [insertList]
  | cons e X ih =>
    simp only [insertList, List.foldl_cons]
    rw [insertOne_of_any t e (h e (List.mem_cons_self e X))]
    exact ih (fun f hf => h f (List.mem_cons_of_mem e hf))

/-- C1: BulkIngest preserves existing rows and is idempotent: the table
after ingesting X extends the prior table row for row, so a row whose url an
entry of X repeats keeps its body_text, read, source_date and original_text;
and ingesting X a second time leaves reading_list identical to ingesting it
once. -/
theorem c1_bulk_ingest_idempotent (t : List Row) (X : List ReadingListEntry) :
    (∃ s, (insert X t).1 = t ++ s) ∧
    (insert X (insert X t).1).1 = (insert X t).1 := by
  constructor
  · exact insertList_extends X t
  · exact insertList_of_all X _ (fun e he => any_url_insertList_mem X t e he)

mutual

theorem find_url_eq_spec (n : Node) :
    find_url n = (specLinkUrls n).findSome? parseUri := by
  match n with
  | .link url children =>
    rw [find_url, specLinkUrls]
    cases h : parseUri url <;> simp [List.findSome?, h]
  | .other none => simp [find_url, specLinkUrls]
  | .other (some children) =>
    rw [find_url, specLinkUrls]
    exact find_url_children_eq_spec children

theorem find_url_children_eq_spec (l : List Node) :
    find_url_children l = (specLinkUrlsList l).findSome? parseUri := by
  match l with
  | [] => simp [find_url_children, specLinkUrlsList]
  | c :: rest =>
    rw [find_url_children, specLinkUrlsList, List.findSome?_append,
      find_url_eq_spec c, find_url_children_eq_spec rest]
    cases (specLinkUrls c).findSome? parseUri <;> simp [Option.orElse]

end

/-- C2: scan_body parses the body with autolink recognition enabled, and on
a parsed tree returns the entry built from the first Link node in depth
first pre-order (descendants of non-link containers visited before the next
sibling, link subtrees not descended into) whose url attribute parses as a
valid absolute URL; when no such link exists it signals MissingLink carrying
the body. -/
theorem c2_scan_body_first_link (parse : String → Except String Node)
    (d : NaiveDate) (s : String) (t : Node) (h : parse s = .ok t) :
    parseopts.constructs.autolink = true ∧
    scan_body parse d s =
      (match specFirstLink t with
       | some u => .ok ⟨u, s, s, d, none⟩
       | none => .error (.MissingLink s)) := by
  refine ⟨rfl, ?_⟩
  have hstep : scan_body parse d s =
      (match find_url t with
       | none => .error (.MissingLink s)
       | some url => .ok ⟨url, s, s, d, none⟩) := by
    unfold scan_body
    rw [h]
  rw [hstep]
  unfold specFirstLink
  rw [← find_url_eq_spec t]
  cases find_url t <;> rfl

theorem c2_witness :
    scan_body
        (fun _ => .ok (Node.other (some [Node.link "https://x/" []])))
        ⟨2024, 3, 15⟩ "text [title](https://x/)" =
      .ok ⟨"https://x/", "text [title](https://x/)",
           "text [title](https://x/)", ⟨2024, 3, 15⟩, none⟩ :=
  ((c2_scan_body_first_link
      (fun _ => .ok (Node.other (some [Node.link "https://x/" []])))
      ⟨2024, 3, 15⟩ "text [title](https://x/)"
      (Node.other (some [Node.link "https://x/" []])) rfl).2).trans (by rfl)

/-- C10: the configured parse options enable no MDX construct, and whenever
the markdown parse succeeds on every input (as the markdown crate guarantees
for non-MDX options), scan_body returns either a successful entry or
MissingLink: the MarkdownError branch is unreachable. -/
theorem c10_no_markdown_error (parse : String → Except String Node)
    (h : ∀ s, (parse s).isOk = true) (d : NaiveDate) (s : String) :
    parseopts.constructs.mdxEnabled = false ∧
    ((∃ e, scan_body parse d s = .ok e) ∨
      scan_body parse d s = .error (.MissingLink s)) := by
  refine ⟨rfl, ?_⟩
  cases hp : parse s with
  | error err =>
    have hok := h s
    rw [hp] at hok
    simp [Except.isOk, Except.toBool] at hok
  | ok t =>
    have hstep : scan_body parse d s =
        (match find_url t with
         | none => .error (.MissingLink s)
         | some url => .ok ⟨url, s, s, d, none⟩) := by
      unfold scan_body
      rw [hp]
    rw [hstep]
    cases find_url t with
    | none => right; rfl
    | some u => left; exact ⟨_, rfl⟩

theorem c10_witness :
    parseopts.constructs.mdxEnabled = false ∧
    ((∃ e, scan_body (fun _ => .ok (Node.other none)) ⟨2024, 3, 15⟩ "x" =
        .ok e) ∨
      scan_body (fun _ => .ok (Node.other none)) ⟨2024, 3, 15⟩ "x" =
        .error (.MissingLink "x")) :=
  c10_no_markdown_error (fun _ => .ok (Node.other none)) (fun _ => rfl)
    ⟨2024, 3, 15⟩ "x"

theorem tagPositions_cons (c : Char) (cs : List Char) :
    tagPositions (c :: cs) =
      (if c == '#' && (matchTag cs).isSome then [0] else []) ++
        (tagPositions cs).map Nat.succ := by
  unfold tagPositions
  rw [List.length_cons, List.range_succ_eq_map, List.filter_cons,
    List.filter_map Nat.succ (List.range cs.length)]
  have hpred : ((fun i => (c :: cs).getD i ' ' == '#' &&
        (matchTag ((c :: cs).drop (i + 1))).isSome) ∘ Nat.succ) =
      (fun i => cs.getD i ' ' == '#' && (matchTag (cs.drop (i + 1))).isSome) := by
    funext i
    simp [Function.comp, List.getD_cons_succ, List.drop_succ_cons]
  rw [hpred]
  by_cases h0 : c == '#' && (matchTag cs).isSome
  · simp only [List.getD_cons_zero, List.drop_succ_cons, List.drop_zero] at h0 ⊢
    simp [h0]
  · simp only [List.getD_cons_zero, List.drop_succ_cons, List.drop_zero] at h0 ⊢
    simp [h0]

theorem findTagFrom_eq_getLast (cs : List Char) :
    findTagFrom cs = (tagPositions cs).getLast?.bind (captureAt cs) := by
  induction cs with
  | nil => rfl
  | cons c cs ih =>
    rw [findTagFrom, ih, tagPositions_cons]
    cases hl : tagPositions cs with
    | nil =>
      simp only [List.map_nil, List.append_nil, List.getLast?_nil,
        Option.none_bind]
      by_cases hc : c = '#'
      · cases hm : matchTag cs with
        | none => simp [hc, hm, captureAt]
        | some p => simp [hc, hm, captureAt, List.drop_succ_cons]
      · have hc2 : (c == '#') = false := by simpa using hc
        simp [hc, hc2]
    | cons a l =>
      cases hgl : (a :: l).getLast? with
      | none => simp at hgl
      | some m =>
        have hmem : m ∈ tagPositions cs := by
          rw [hl]
          exact List.mem_of_mem_getLast? (by rw [hgl]; rfl)
        have hsome : (matchTag (cs.drop (m + 1))).isSome = true := by
          have hf := List.mem_filter.mp (by
            unfold tagPositions at hmem
            exact hmem)
          have h2 := hf.2
          rw [Bool.and_eq_true] at h2
          exact h2.2
        obtain ⟨pr, hpr⟩ := Option.isSome_iff_exists.mp hsome
        have hcap : captureAt cs m = some (pr.1, String.mk (skipSpaceColon pr.2)) := by
          unfold captureAt
          rw [hpr]
          rfl
        have hcap2 : captureAt (c :: cs) (m + 1) =
            some (pr.1, String.mk (skipSpaceColon pr.2)) := by
          unfold captureAt
          rw [List.drop_succ_cons, hpr]
          rfl
        have hrhs : ((if c == '#' && (matchTag cs).isSome then [0] else []) ++
            (a :: l).map Nat.succ).getLast? = some (m + 1) := by
          rw [List.getLast?_append_of_ne_nil _ (by simp),
            List.getLast?_map, hgl]
          rfl
        rw [hrhs]
        simp [hcap, hcap2]

/-- C3 is false as stated: on the line "#read a #tbr b" the code captures
the LAST tag occurrence (tag tbr with body "b"), while the claimed first
(leftmost) occurrence is the tag read with the remainder "a #tbr b". -/
theorem c3_counterexample :
    ENTRY_REGEX.captures "#read a #tbr b" = some ("tbr", "b") ∧
    leftmostCapture "#read a #tbr b" = some ("read", "a #tbr b") ∧
    (some ("tbr", "b") : Option (String × String)) ≠
      some ("read", "a #tbr b") := by
  refine ⟨by decide, by decide, by decide⟩

/-- C3 (amended): the tag pattern matches the LAST (rightmost) occurrence,
anywhere on the line, of a hash sign followed by reading, read or tbr
(alternatives tried in that order at the position); the captured body is the
remainder of the line after that occurrence and the following run of spaces
and colons; and there is at most one match per line, exactly one when the
line contains a tag occurrence. -/
theorem c3_entry_regex_rightmost (line : String) :
    ENTRY_REGEX.captures line =
      (tagPositions line.data).getLast?.bind (captureAt line.data) :=
  findTagFrom_eq_getLast line.data

theorem scan_body_ok_shape (parse : String → Except String Node)
    (d : NaiveDate) (s : String) (e : ReadingListEntry)
    (h : scan_body parse d s = .ok e) :
    ∃ u, e = ⟨u, s, s, d, none⟩ := by
  unfold scan_body at h
  cases hp : parse s with
  | error err =>
    simp only [hp] at h
    exact Except.noConfusion h
  | ok t =>
    simp only [hp] at h
    cases hf : find_url t with
    | none =>
      simp only [hf] at h
      exact Except.noConfusion h
    | some u =>
      simp only [hf] at h
      injection h with h2
      exact ⟨u, h2.symm⟩

theorem scanLines_ok_fields (parse : String → Except String Node)
    (d : NaiveDate) (lines : List (Except String String))
    (entries : List ReadingListEntry)
    (h : scanLines parse d lines = .ok entries) :
    ∀ e ∈ entries, ∃ line tag body u,
      ENTRY_REGEX.captures line = some (tag, body) ∧
      scan_body parse d body = .ok ⟨u, body, body, d, none⟩ ∧
      e = ⟨u, line, body, d, readOfTag tag⟩ := by
  induction lines generalizing entries with
  | nil =>
    simp only [scanLines] at h
    injection h with h2
    subst h2
    intro e he
    cases he
  | cons ln rest ih =>
    match ln with
    | .error e0 => simp [scanLines] at h
    | .ok line =>
      rw [scanLines] at h
      cases hcap : ENTRY_REGEX.captures line with
      | none =>
        rw [hcap] at h
        exact ih entries h
      | some p =>
        obtain ⟨tag, body⟩ := p
        rw [hcap] at h
        cases hsb : scan_body parse d body with
        | error err =>
          simp only [hsb] at h
          exact Except.noConfusion h
        | ok entry =>
          simp only [hsb] at h
          cases hsl : scanLines parse d rest with
          | error err =>
            simp only [hsl] at h
            exact Except.noConfusion h
          | ok es =>
            simp only [hsl] at h
            injection h with h2
            subst h2
            intro e he
            rcases List.mem_cons.mp he with rfl | he2
            · obtain ⟨u, hshape⟩ :=
                scan_body_ok_shape parse d body entry hsb
              refine ⟨line, tag, body, u, hcap, ?_, ?_⟩
              · rw [hsb, hshape]
              · rw [hshape]
            · exact ih es hsl e he2

/-- C4: for every successfully scanned file, each produced entry has url as
parsed from the captured body, source_date the date parsed from the filename
stem, body_text the captured body fragment after the tag, original_text
overwritten with the full unmodified line, and read overwritten with the
preliminary read state of the tag (read gives read, tbr gives to-be-read,
reading gives unknown). -/
theorem c4_scan_file_fields (parse : String → Except String Node)
    (f : FileData) (entries : List ReadingListEntry)
    (h : scan_file parse f = .ok entries) :
    ∃ stem d, f.stem = some stem ∧ parseDate stem = some d ∧
      ∀ e ∈ entries, ∃ line tag body u,
        ENTRY_REGEX.captures line = some (tag, body) ∧
        scan_body parse d body = .ok ⟨u, body, body, d, none⟩ ∧
        e = ⟨u, line, body, d, readOfTag tag⟩ := by
  unfold scan_file at h
  cases hstem : f.stem with
  | none =>
    simp only [hstem] at h
    exact Except.noConfusion h
  | some stem =>
    simp only [hstem] at h
    cases hdate : parseDate stem with
    | none =>
      simp only [hdate] at h
      exact Except.noConfusion h
    | some d =>
      simp only [hdate] at h
      cases hcontent : f.content with
      | none =>
        simp only [hcontent] at h
        exact Except.noConfusion h
      | some lines =>
        simp only [hcontent] at h
        exact ⟨stem, d, rfl, hdate, scanLines_ok_fields parse d lines entries h⟩

theorem c4_witness :
    ∃ stem d,
      (FileData.mk "2024-03-15.md" (some "2024-03-15") (some "md")
        (some [.ok "- #reading check out [Foo](https://foo.example/)"])).stem
        = some stem ∧
      parseDate stem = some d ∧
      ∀ e ∈ [(⟨"https://foo.example/",
               "- #reading check out [Foo](https://foo.example/)",
               "check out [Foo](https://foo.example/)",
               ⟨2024, 3, 15⟩, none⟩ : ReadingListEntry)],
        ∃ line tag body u,
          ENTRY_REGEX.captures line = some (tag, body) ∧
          scan_body
            (fun _ => .ok (Node.other (some [Node.link "https://foo.example/" []])))
            d body = .ok ⟨u, body, body, d, none⟩ ∧
          e = ⟨u, line, body, d, readOfTag tag⟩ :=
  c4_scan_file_fields
    (fun _ => .ok (Node.other (some [Node.link "https://foo.example/" []])))
    (FileData.mk "2024-03-15.md" (some "2024-03-15") (some "md")
      (some [.ok "- #reading check out [Foo](https://foo.example/)"]))
    [⟨"https://foo.example/",
      "- #reading check out [Foo](https://foo.example/)",
      "check out [Foo](https://foo.example/)",
      ⟨2024, 3, 15⟩, none⟩]
    (by rfl)

theorem processChildren_dirs_size (parse : String → Except String Node)
    (p : String) (l : List (Option FsTree)) :
    (((processChildren parse p l).2.2).map sizeOf).sum ≤ sizeOf l := by
  induction l with
  | nil => simp [processChildren]
  | cons c cs ih =>
    have hchild : (((scanChild parse p c).2.2).map sizeOf).sum ≤ sizeOf c := by
      rcases c with _ | t
      · simp [scanChild]
      · rcases t with f | ⟨q, ents⟩
        · simp only [scanChild]
          by_cases hf : f.ext = some "md"
          · simp only [hf, if_pos rfl]
            rcases scan_file parse f with e | v <;>
              simp [Option.some.sizeOf_spec]
          · simp only [if_neg hf]
            simp [Option.some.sizeOf_spec]
        · simp only [scanChild, List.map_cons, List.map_nil, List.sum_cons,
            List.sum_nil, Option.some.sizeOf_spec]
          omega
    simp only [processChildren, List.map_append, List.sum_append,
      List.cons.sizeOf_spec]
    omega

theorem stack_step_size (parse : String → Except String Node) (p : String)
    (l : List (Option FsTree)) (rest : List FsTree) :
    (List.map sizeOf ((processChildren parse p l).2.2.reverse ++ rest)).sum <
      (List.map sizeOf (FsTree.dir p (some l) :: rest)).sum := by
  have hpc := processChildren_dirs_size parse p l
  simp only [List.map_append, List.sum_append, List.map_reverse,
    List.sum_reverse, List.map_cons, List.sum_cons, FsTree.dir.sizeOf_spec,
    Option.some.sizeOf_spec]
  omega

theorem scanFilesGo_append (parse : String → Except String Node)
    (s1 s2 : List FsTree) :
    scanFilesGo parse (s1 ++ s2) =
      ((scanFilesGo parse s1).1 ++ (scanFilesGo parse s2).1,
       (scanFilesGo parse s1).2 ++ (scanFilesGo parse s2).2) := by
  match s1 with
  | [] =>
    have h0 : scanFilesGo parse ([] : List FsTree) = ([], []) := by
      rw [scanFilesGo]
    simp [h0]
  | .file f :: rest =>
    rw [List.cons_append, scanFilesGo, scanFilesGo,
      scanFilesGo_append parse rest s2]
    simp
  | .dir p none :: rest =>
    rw [List.cons_append, scanFilesGo, scanFilesGo,
      scanFilesGo_append parse rest s2]
    simp
  | .dir p (some l) :: rest =>
    rw [List.cons_append, scanFilesGo, scanFilesGo, ← List.append_assoc,
      scanFilesGo_append parse
        ((processChildren parse p l).2.2.reverse ++ rest) s2]
    simp [List.append_assoc]
termination_by (s1.map sizeOf).sum
decreasing_by
  · simp only [List.map_cons, List.sum_cons, FsTree.file.sizeOf_spec]
    omega
  · simp only [List.map_cons, List.sum_cons, FsTree.dir.sizeOf_spec]
    omega
  · apply stack_step_size

theorem scanLines_append (parse : String → Except String Node) (d : NaiveDate)
    (pre rest : List (Except String String)) (es : List ReadingListEntry)
    (h : scanLines parse d pre = .ok es) :
    scanLines parse d (pre ++ rest) =
      (scanLines parse d rest).map (fun bs => es ++ bs) := by
  induction pre generalizing es with
  | nil =>
    simp only [scanLines] at h
    injection h with h2
    subst h2
    simp only [List.nil_append]
    cases scanLines parse d rest <;> rfl
  | cons ln pre ih =>
    match ln with
    | .error e0 =>
      simp only [scanLines] at h
      exact Except.noConfusion h
    | .ok line =>
      rw [scanLines] at h
      rw [List.cons_append, scanLines]
      cases hcap : ENTRY_REGEX.captures line with
      | none =>
        rw [hcap] at h
        exact ih es h
      | some pr =>
        obtain ⟨tag, body⟩ := pr
        rw [hcap] at h
        dsimp only [] at h ⊢
        cases hsb : scan_body parse d body with
        | error err =>
          rw [hsb] at h
          exact Except.noConfusion h
        | ok entry =>
          rw [hsb] at h
          dsimp only [] at h ⊢
          cases hsl : scanLines parse d pre with
          | error err =>
            rw [hsl] at h
            exact Except.noConfusion h
          | ok es2 =>
            rw [hsl] at h
            dsimp only [] at h
            injection h with h2
            subst h2
            rw [ih es2 hsl]
            cases scanLines parse d rest <;> rfl

theorem scanLines_single_error (parse : String → Except String Node)
    (d : NaiveDate) (ln : Except String String)
    (post : List (Except String String)) (e : RoundupErrorKind)
    (h : scanLines parse d [ln] = .error e) :
    scanLines parse d (ln :: post) = .error e := by
  match ln with
  | .error e0 =>
    rw [scanLines] at h ⊢
    exact h
  | .ok line =>
    rw [scanLines] at h ⊢
    cases hcap : ENTRY_REGEX.captures line with
    | none =>
      rw [hcap] at h
      exact Except.noConfusion h
    | some pr =>
      obtain ⟨tag, body⟩ := pr
      rw [hcap] at h
      dsimp only [] at h ⊢
      cases hsb : scan_body parse d body with
      | error err =>
        rw [hsb] at h
        exact h
      | ok entry =>
        rw [hsb] at h
        exact Except.noConfusion h

/-- C5: per-file and per-directory error isolation of the walker. First,
the loop result over any split of the work stack is the concatenation of the
results of the parts, so what one file or directory contributes never
affects the entries or errors of the others, and both lists are always
returned. Second, the first failing line of a file (an io error or a
scan_body failure) makes the whole file fail with exactly that error and
discards every entry scanned from earlier lines. Third, a failing md file
contributes exactly one error and no entries, while a successful one
contributes its entries and no error. -/
theorem c5_error_isolation (parse : String → Except String Node) :
    (∀ s1 s2 : List FsTree,
      scanFilesGo parse (s1 ++ s2) =
        ((scanFilesGo parse s1).1 ++ (scanFilesGo parse s2).1,
         (scanFilesGo parse s1).2 ++ (scanFilesGo parse s2).2)) ∧
    (∀ d pre ln post es e, scanLines parse d pre = .ok es →
      scanLines parse d [ln] = .error e →
      scanLines parse d (pre ++ ln :: post) = .error e) ∧
    (∀ dirPath f e, f.ext = some "md" → scan_file parse f = .error e →
      scanChild parse dirPath (some (.file f)) = ([], [⟨f.path, e⟩], [])) ∧
    (∀ dirPath f es, f.ext = some "md" → scan_file parse f = .ok es →
      scanChild parse dirPath (some (.file f)) = (es, [], [])) := by
  refine ⟨scanFilesGo_append parse, ?_, ?_, ?_⟩
  · intro d pre ln post es e hpre hln
    rw [scanLines_append parse d pre (ln :: post) es hpre,
      scanLines_single_error parse d ln post e hln]
    rfl
  · intro dirPath f e hext herr
    simp [scanChild, hext, herr]
  · intro dirPath f es hext hok
    simp [scanChild, hext, hok]

theorem c5_witness :
    scanLines (fun _ => .ok (Node.other none)) ⟨2024, 3, 15⟩
        ([.ok "no tag"] ++ .ok "#tbr x" :: [.ok "later"]) =
      .error (.MissingLink "x") ∧
    scanChild (fun _ => .ok (Node.other none)) "d"
        (some (.file ⟨"d/2024-03-15.md", some "2024-03-15", some "md",
          some [.ok "#tbr x"]⟩)) =
      ([], [⟨"d/2024-03-15.md", .MissingLink "x"⟩], []) ∧
    scanChild (fun _ => .ok (Node.other none)) "d"
        (some (.file ⟨"d/2024-03-15.md", some "2024-03-15", some "md",
          some [.ok "no tag"]⟩)) =
      ([], [], []) := by
  refine ⟨(c5_error_isolation _).2.1 ⟨2024, 3, 15⟩ [.ok "no tag"]
      (.ok "#tbr x") [.ok "later"] [] (.MissingLink "x") (by rfl) (by rfl),
    (c5_error_isolation _).2.2.1 "d" _ (.MissingLink "x") (by rfl) (by rfl),
    (c5_error_isolation _).2.2.2 "d" _ [] (by rfl) (by rfl)⟩

/-- C6 is false as stated: it quantifies over every id sequence, but an id
with no catalog row is inserted into roundup_contents and yet never reported
by GetRoundup, which lists catalog rows. With an empty catalog and I = [1],
after SetRoundup the included ids are empty, not [1]. -/
theorem c6_counterexample :
    includedIds [] (update_roundup [] ⟨2024, 3, 1⟩ [1]) ⟨2024, 3, 1⟩ = [] ∧
    (1 : Int) ∈ [(1 : Int)] ∧
    (1 : Int) ∉ includedIds [] (update_roundup [] ⟨2024, 3, 1⟩ [1]) ⟨2024, 3, 1⟩ := by
  refine ⟨rfl, by decide, by decide⟩

theorem update_roundup_any (rc : List RRow) (d : NaiveDate) (ids : List Int)
    (x : Int) :
    ((update_roundup rc d ids).any
      (fun m => m.date = dateToString d ∧ m.entry = x)) = true ↔ x ∈ ids := by
  unfold update_roundup
  simp only [List.any_append, Bool.or_eq_true, List.any_eq_true,
    List.mem_filter, List.mem_map, decide_eq_true_eq]
  constructor
  · rintro (⟨m, ⟨_hm, hne⟩, hd, _he⟩ | ⟨m, ⟨i, hi, rfl⟩, _hd, he⟩)
    · exact absurd hd hne
    · subst he
      exact hi
  · intro hx
    exact Or.inr ⟨⟨dateToString d, x⟩, ⟨x, hx, rfl⟩, rfl, rfl⟩

/-- C6 (amended): SetRoundup deletes every membership row with the date and
inserts one row per id in the given order, and calling it twice is identical
to calling it once; provided every id of I has a catalog row (as the spec
notes the HTTP surface guarantees), GetRoundup afterwards reports as
included exactly the ids in I and no id outside I. -/
theorem c6_set_roundup (rl : List Row) (rc : List RRow) (d : NaiveDate)
    (ids : List Int) (hids : ∀ i ∈ ids, ∃ r ∈ rl, r.id = i) :
    (∀ i, i ∈ includedIds rl (update_roundup rc d ids) d ↔ i ∈ ids) ∧
    update_roundup (update_roundup rc d ids) d ids =
      update_roundup rc d ids := by
  constructor
  · intro i
    unfold includedIds getRoundupIncluded
    rw [List.filterMap_map]
    rw [List.mem_filterMap]
    constructor
    · rintro ⟨r, _hr, hif⟩
      dsimp only [Function.comp] at hif
      by_cases hany : ((update_roundup rc d ids).any
          (fun m => m.date = dateToString d ∧ m.entry = r.id)) = true
      · rw [if_pos hany] at hif
        injection hif with h2
        subst h2
        exact (update_roundup_any rc d ids r.id).mp hany
      · rw [if_neg hany] at hif
        exact Option.noConfusion hif
    · intro hi
      obtain ⟨r, hr, hid⟩ := hids i hi
      refine ⟨r, hr, ?_⟩
      dsimp only [Function.comp]
      rw [if_pos ((update_roundup_any rc d ids r.id).mpr (hid ▸ hi)), hid]
  · unfold update_roundup
    dsimp only []
    rw [List.filter_append]
    have h1 : (ids.map (fun i => (⟨dateToString d, i⟩ : RRow))).filter
        (fun r => r.date ≠ dateToString d) = [] := by
      induction ids with
      | nil => rfl
      | cons i is ih => simp [ih]
    have h2 : ∀ (l : List RRow), (l.filter (fun r => r.date ≠ dateToString d)).filter
        (fun r => r.date ≠ dateToString d) =
        l.filter (fun r => r.date ≠ dateToString d) := by
      intro l
      induction l with
      | nil => rfl
      | cons m ms ih =>
        by_cases hm : m.date = dateToString d <;> simp [hm, ih]
    rw [h1, h2, List.append_nil]

theorem c6_witness :
    (∀ i, i ∈ includedIds [⟨1, "https://x/", "2024-03-01", "o", "b", none⟩]
        (update_roundup [] ⟨2024, 3, 1⟩ [1]) ⟨2024, 3, 1⟩ ↔ i ∈ [(1 : Int)]) ∧
    update_roundup (update_roundup [] ⟨2024, 3, 1⟩ [1]) ⟨2024, 3, 1⟩ [1] =
      update_roundup [] ⟨2024, 3, 1⟩ [1] :=
  c6_set_roundup [⟨1, "https://x/", "2024-03-01", "o", "b", none⟩] []
    ⟨2024, 3, 1⟩ [1] (by decide)

/-- C7: an Update intent with any scan errors still commits the successfully
scanned entries in the one transaction (the resulting table is exactly the
BulkIngest of the scanned entries, whatever the error list), and the
response carries both the commit outcome and the per-file error list along
with the pre and post counts; BulkIngest returns the post-transaction total
entry count of reading_list. -/
theorem c7_update_commits (db : List Row) (entries : List ReadingListEntry)
    (errors : List RoundupError) :
    (update db (entries, errors)).1 = (insert entries db).1 ∧
    (update db (entries, errors)).2.scan_errors = errors ∧
    (update db (entries, errors)).2.db_ok = true ∧
    (update db (entries, errors)).2.count_pre = db.length ∧
    (update db (entries, errors)).2.count_post = (insert entries db).2 ∧
    (insert entries db).2 = (insert entries db).1.length :=
  ⟨rfl, rfl, rfl, rfl, rfl, rfl⟩

/-- C8: UpdateEntry touches only body_text and read of the row with the
given id: the table keeps its length, every row keeps its id, url,
source_date and original_text, rows with a different id are entirely
unchanged, the row with the id gets exactly the new body_text and read, and
when no row carries the id the table is unchanged (zero rows affected, no
error). -/
theorem c8_update_entry_frame (db : List Row) (id : Int) (b : String)
    (rd : Option Bool) :
    (update_article db id b rd).length = db.length ∧
    (∀ i : Nat, ((update_article db id b rd)[i]?).map
        (fun r => (r.id, r.url, r.source_date, r.original_text)) =
      (db[i]?).map (fun r => (r.id, r.url, r.source_date, r.original_text))) ∧
    (∀ (i : Nat) r r2, db[i]? = some r →
      (update_article db id b rd)[i]? = some r2 →
      (r.id = id → r2 = { r with body_text := b, read := rd }) ∧
      (r.id ≠ id → r2 = r)) ∧
    ((∀ r ∈ db, r.id ≠ id) → update_article db id b rd = db) := by
  refine ⟨?_, ?_, ?_, ?_⟩
  · exact List.length_map db _
  · intro i
    unfold update_article
    rw [List.getElem?_map]
    cases db[i]? with
    | none => rfl
    | some r =>
      by_cases hr : r.id = id <;> simp [hr]
  · intro i r r2 h1 h2
    unfold update_article at h2
    rw [List.getElem?_map, h1] at h2
    injection h2 with h3
    constructor
    · intro hid
      rw [← h3]
      simp [hid]
    · intro hid
      rw [← h3]
      simp [hid]
  · intro hall
    unfold update_article
    have hmap : ∀ (l : List Row), (∀ r ∈ l, r.id ≠ id) →
        l.map (fun r => if r.id = id then
          { r with body_text := b, read := rd } else r) = l := by
      intro l
      induction l with
      | nil => intro _; rfl
      | cons r rs ih =>
        intro hl
        simp only [List.map_cons]
        rw [if_neg (hl r (List.mem_cons_self r rs)),
          ih (fun x hx => hl x (List.mem_cons_of_mem r hx))]
    exact hmap db hall

theorem c8_witness :
    (((⟨1, "u", "2024-01-01", "o", "b0", none⟩ : Row).id = 1 →
      (⟨1, "u", "2024-01-01", "o", "b1", some true⟩ : Row) =
        { (⟨1, "u", "2024-01-01", "o", "b0", none⟩ : Row) with
          body_text := "b1", read := some true }) ∧
     ((⟨1, "u", "2024-01-01", "o", "b0", none⟩ : Row).id ≠ 1 →
      (⟨1, "u", "2024-01-01", "o", "b1", some true⟩ : Row) =
        ⟨1, "u", "2024-01-01", "o", "b0", none⟩)) ∧
    update_article [⟨1, "u", "2024-01-01", "o", "b0", none⟩] 2 "b1"
        (some true) = [⟨1, "u", "2024-01-01", "o", "b0", none⟩] :=
  ⟨(c8_update_entry_frame [⟨1, "u", "2024-01-01", "o", "b0", none⟩] 1 "b1"
      (some true)).2.2.1 0 ⟨1, "u", "2024-01-01", "o", "b0", none⟩
      ⟨1, "u", "2024-01-01", "o", "b1", some true⟩ rfl rfl,
   (c8_update_entry_frame [⟨1, "u", "2024-01-01", "o", "b0", none⟩] 2 "b1"
      (some true)).2.2.2 (by decide)⟩

theorem filter_id_singleton (rl : List Row) (x : Int)
    (h2 : List.Pairwise (fun a b => a.id ≠ b.id) rl) :
    rl.filter (fun r => r.id = x) =
      (match rl.find? (fun r => r.id = x) with
       | some r => [r]
       | none => []) := by
  induction rl with
  | nil => rfl
  | cons r rs ih =>
    rw [List.pairwise_cons] at h2
    by_cases hr : r.id = x
    · have hnone : rs.filter (fun s => s.id = x) = [] := by
        rw [List.filter_eq_nil_iff]
        intro s hs
        simp only [decide_eq_true_eq]
        intro hsx
        exact h2.1 s hs (by rw [hr, hsx])
      rw [List.filter_cons, if_pos (by simpa using hr), hnone,
        List.find?_cons_of_pos _ (by simpa using hr)]
    · rw [List.filter_cons, if_neg (by simpa using hr),
        List.find?_cons_of_neg _ (by simpa using hr)]
      exact ih h2.2

theorem joinBodies_rows (rl : List Row) (L : List RRow)
    (h2 : List.Pairwise (fun a b => a.id ≠ b.id) rl)
    (hL : ∀ m ∈ L, ∃ r ∈ rl, r.id = m.entry) :
    (L.map (fun m =>
      let hits := rl.filter (fun r => r.id = m.entry)
      if hits.isEmpty then [none]
      else hits.map (fun r => some r.body_text))).flatten =
      (L.filterMap (fun m =>
        (rl.find? (fun r => r.id = m.entry)).map
          (fun r => r.body_text))).map some := by
  induction L with
  | nil => rfl
  | cons m ms ih =>
    obtain ⟨r, hr, hid⟩ := hL m (List.mem_cons_self m ms)
    have hsing := filter_id_singleton rl m.entry h2
    cases hfind : rl.find? (fun s => s.id = m.entry) with
    | none =>
      rw [hfind] at hsing
      have hmem : r ∈ rl.filter (fun s => s.id = m.entry) :=
        List.mem_filter.mpr ⟨hr, by simpa using hid⟩
      rw [hsing] at hmem
      cases hmem
    | some r0 =>
      rw [hfind] at hsing
      rw [List.map_cons, List.flatten_cons, List.filterMap_cons]
      dsimp only []
      rw [hsing, hfind]
      simp only [Option.map_some, List.isEmpty_cons, List.map_cons,
        List.map_nil]
      rw [ih (fun u hu => hL u (List.mem_cons_of_mem m hu))]
      simp

theorem leftJoinBodies_eq (rc : List RRow) (rl : List Row) (ds : String)
    (h1 : ∀ m ∈ rc, m.date = ds → ∃ r ∈ rl, r.id = m.entry)
    (h2 : List.Pairwise (fun a b => a.id ≠ b.id) rl) :
    leftJoinBodies rc rl ds = (specBodies rl rc ds).map some := by
  unfold leftJoinBodies specBodies
  exact joinBodies_rows rl (rc.filter (fun m => m.date = ds)) h2
    (fun m hm => h1 m (List.mem_filter.mp hm).1
      (by simpa using (List.mem_filter.mp hm).2))

theorem collectRows_map_some (bs : List String) :
    collectRows (bs.map some) = .ok bs := by
  induction bs with
  | nil => rfl
  | cons b bs ih => simp only [List.map_cons, collectRows, ih]

theorem foldl_bodies (bs : List String) (init : String) :
    bs.foldl (fun acc b => acc ++ b ++ "\n" ++ "\n") init =
      init ++ (bs.map (fun b => b ++ "\n" ++ "\n")).foldr (· ++ ·) "" := by
  induction bs generalizing init with
  | nil => simp
  | cons b bs ih =>
    rw [List.foldl_cons, ih, List.map_cons, List.foldr_cons]
    simp [String.append_assoc]

/-- C9: ComposeRoundupMarkdown for a date yields (when every membership of
the date has an entry and entry ids are distinct, as the schema provides)
the document beginning with the front-matter block (---, the quoted title,
the date line, ---, blank line) followed by the body_text of every entry
whose membership includes the date, each terminated by a blank line. -/
theorem c9_compose_roundup_md (rl : List Row) (rc : List RRow) (d : NaiveDate)
    (h1 : ∀ m ∈ rc, m.date = dateToString d → ∃ r ∈ rl, r.id = m.entry)
    (h2 : List.Pairwise (fun a b => a.id ≠ b.id) rl) :
    render_roundup_md rl rc d =
      .ok (frontMatter (dateToString d) ++
        ((specBodies rl rc (dateToString d)).map
          (fun b => b ++ "\n" ++ "\n")).foldr (· ++ ·) "") := by
  unfold render_roundup_md
  dsimp only []
  rw [leftJoinBodies_eq rc rl (dateToString d) h1 h2, collectRows_map_some]
  dsimp only []
  rw [foldl_bodies]

theorem c9_witness :
    render_roundup_md
        [⟨1, "u1", "2024-03-01", "oA", "A", none⟩,
         ⟨2, "u2", "2024-03-01", "oB", "B", none⟩]
        [⟨"2024-03-01", 1⟩, ⟨"2024-03-01", 2⟩] ⟨2024, 3, 1⟩ =
      .ok ("---\ntitle: \"Reading Roundup, 2024-03-01\"\ndate: 2024-03-01\n---\n\nA\n\nB\n\n") :=
  (c9_compose_roundup_md
    [⟨1, "u1", "2024-03-01", "oA", "A", none⟩,
     ⟨2, "u2", "2024-03-01", "oB", "B", none⟩]
    [⟨"2024-03-01", 1⟩, ⟨"2024-03-01", 2⟩] ⟨2024, 3, 1⟩
    (by decide) (by decide)).trans (by rfl)
